import Mathlib

/-!
Verification development for the GazeEventDetector repository.

The Python source is shallowly embedded in Lean: numpy arrays become lists,
machine floats that only ever hold exact experiment quantities (timestamps in
milliseconds, visual angles, thresholds) become rationals, and fallible code
returns `Except String`.  Each definition is translated from the corresponding
source function; where a function of the repository lives in a file that is
not part of the sources (e.g. `velocity_utils.py`, `BaseDetector.py`,
`SaccadeEvent.py`, `LWSFixationEvent.py`), the missing ingredient enters as an
explicit parameter or is modelled from the specification, as noted in the
doc comment of the definition concerned.
-/

/-! ### Numeric kernels: models of the numpy primitives used by the detectors

`np.nonzero(mask)[0]` on a boolean array returns the sorted list of indices
holding `True`.  `nonzeroIdxsFrom k` computes those indices for a list whose
first element sits at absolute position `k`. -/

/-- Model of `np.nonzero(mask)[0]` (indices counted from `k`). -/
def nonzeroIdxsFrom : ℕ → List Bool → List ℕ
  | _, [] => []
  | k, b :: bs => if b then k :: nonzeroIdxsFrom (k + 1) bs else nonzeroIdxsFrom (k + 1) bs

/-- Model of `np.nonzero(mask)[0]`: the ascending indices of `true` entries. -/
def nonzeroIdxs (mask : List Bool) : List ℕ :=
  nonzeroIdxsFrom 0 mask

/-- Model of Python's `str.lower()`: lower-case every character. -/
def lowerString (s : String) : String :=
  String.mk (s.data.map Char.toLower)

/-- Model of the combination `np.split(idxs, np.where(p applied to np.diff(idxs))[0] + 1)`:
the sorted index list is cut between two consecutive entries `a`, `b` exactly when
`p a b` holds, yielding the chunks in order.  `np.split` never produces an empty
chunk on a nonempty input with interior cut positions, and this function mirrors
that. -/
def splitWhen (p : ℕ → ℕ → Bool) : List ℕ → List (List ℕ)
  | [] => []
  | [x] => [[x]]
  | x :: y :: rest =>
    match splitWhen p (y :: rest) with
    | [] => [[x]]
    | g :: gs => if p x y then [x] :: g :: gs else (x :: g) :: gs

/-! ### EngbertSaccadeDetector (`src/EventDetectors/EngbertSaccadeDetector.py`)

`_find_start_end_indices` receives the boolean candidate array, splits the
candidate indices into runs wherever the index difference exceeds
`self._min_samples_between_events`, takes `(min, max)` of every run, and keeps
the runs with `max - min >= self._min_samples_within_event`.  The two
`_min_samples_*` properties live in `BaseDetector.py`, which is absent from the
sources; following the specification ("inter_event_time (converted to samples
via sampling rate)", "min_duration (in samples)") they enter here as the natural
number parameters `mBetween` and `mWithin`. -/

/-- Lines 82–87 of `EngbertSaccadeDetector.py`: candidate indices split into
separate saccades wherever `np.diff` exceeds `mBetween`.  When there is no
candidate at all, `np.split` of the empty index array returns one empty chunk,
exactly as numpy does. -/
def mergeCandidateRuns (mBetween : ℕ) (cand : List Bool) : List (List ℕ) :=
  let idxs := nonzeroIdxs cand
  if idxs.isEmpty then [[]]
  else splitWhen (fun a b => decide (mBetween < b - a)) idxs

/-- The `map(lambda sac_idxs: (sac_idxs.min(), sac_idxs.max()), ...)` step
(line 89).  Numpy raises `ValueError` when `min` is applied to an empty array,
which happens exactly when the candidate array held no `True` at all. -/
def chunksMinMax : List (List ℕ) → Except String (List (ℕ × ℕ))
  | [] => Except.ok []
  | c :: cs =>
    match c.min?, c.max?, chunksMinMax cs with
    | some s, some e, Except.ok rest => Except.ok ((s, e) :: rest)
    | some _, some _, Except.error msg => Except.error msg
    | _, _, _ => Except.error "zero-size array to reduction operation minimum which has no identity"

/-- Embedding of `EngbertSaccadeDetector._find_start_end_indices` (lines 76–92): split the
candidates into runs, take start/end of each run, drop runs with
`end - start < mWithin`. -/
def find_start_end_indices (mBetween mWithin : ℕ) (cand : List Bool) :
    Except String (List (ℕ × ℕ)) :=
  match chunksMinMax (mergeCandidateRuns mBetween cand) with
  | Except.error msg => Except.error msg
  | Except.ok startEnd => Except.ok (startEnd.filter fun se => decide (mWithin ≤ se.2 - se.1))

/-- Embedding of `EngbertSaccadeDetector.detect` (lines 37–45), taken from the candidate
mask onward: `np.concatenate([np.arange(start, end + 1) ...])` raises
`ValueError` on an empty list of ranges; otherwise the boolean mask of length
`len(x)` (= the length of the candidate mask) is `True` exactly on the samples
covered by a surviving run.  The candidate mask itself is produced by
`_find_candidates`, whose numeric core calls `velocity_utils.py` (absent from
the sources), so this embedding is parametrized by the candidate mask. -/
def engbertDetect (mBetween mWithin : ℕ) (cand : List Bool) : Except String (List Bool) :=
  match find_start_end_indices mBetween mWithin cand with
  | Except.error msg => Except.error msg
  | Except.ok runs =>
    if runs.isEmpty then Except.error "need at least one array to concatenate"
    else Except.ok ((List.range cand.length).map fun i =>
      runs.any fun se => decide (se.1 ≤ i) && decide (i ≤ se.2))

/-- The input-validation prefix of `EngbertSaccadeDetector._find_candidates`
(lines 60–64): mismatched lengths and too-short arrays raise `ValueError`.
The remainder of `_find_candidates` (windowed derivatives and median standard
deviations via `velocity_utils.py`, absent from the sources) is not modelled;
this definition captures exactly the two validation checks. -/
def find_candidates_checks (derivation_window_size : ℕ) (x y : List ℚ) : Except String Unit :=
  if x.length ≠ y.length then Except.error "x and y must be of the same length"
  else if x.length < 2 * derivation_window_size then
    Except.error "x and y must be of length at least 2 * derivation_window_size"
  else Except.ok ()

/-! ### Event model and extractor (`src/LWS/scripts/extract_events.py`,
`src/GazeEvents/BaseGazeEvent.py`, `src/GazeEvents/BlinkEvent.py`)

An extracted event owns the contiguous index run it was built from and the
timestamps (milliseconds) of those samples.  `BaseGazeEvent.__init__` rejects
events with fewer than `DEFAULT_MINIMUM_SAMPLES_PER_EVENT = 2` samples and
negative timestamps (NaN timestamps are not representable over `ℚ`).
`SaccadeEvent.py` and `FixationEvent.py` are absent from the sources, so their
`is_outlier` rules enter as function parameters; `BlinkEvent.is_outlier` is in
the sources and is `duration < DEFAULT_BLINK_MINIMUM_DURATION`. -/

inductive EventFamily where
  | blink
  | saccade
  | fixation
deriving DecidableEq

structure GazeEvent where
  family : EventFamily
  idxs : List ℕ
  timestamps : List ℚ
  is_outlier : Bool
deriving DecidableEq

/-- Embedding of `BaseGazeEvent.start_time`: the first timestamp of the event. -/
def GazeEvent.start_time (e : GazeEvent) : ℚ :=
  e.timestamps.headD 0

/-- Embedding of `BaseGazeEvent.end_time`: the last timestamp of the event. -/
def GazeEvent.end_time (e : GazeEvent) : ℚ :=
  e.timestamps.getLastD 0

/-- Embedding of `experiment_config.DEFAULT_BLINK_MINIMUM_DURATION` (milliseconds). -/
def DEFAULT_BLINK_MINIMUM_DURATION : ℚ := 50

/-- Embedding of `BlinkEvent.is_outlier`: `duration < DEFAULT_BLINK_MINIMUM_DURATION`,
with `duration = end_time - start_time` from `BaseGazeEvent`. -/
def blinkIsOutlier (ts : List ℚ) : Bool :=
  decide (ts.getLastD 0 - ts.headD 0 < DEFAULT_BLINK_MINIMUM_DURATION)

/-- Embedding of `BaseGazeEvent.__init__` validation followed by event construction:
fewer than two samples or a negative timestamp raises `ValueError`. -/
def mkGazeEvent (fam : EventFamily) (outlier : List ℚ → Bool) (ts : List ℚ) (idxs : List ℕ) :
    Except String GazeEvent :=
  if ts.length < 2 then Except.error "event must be at least 2 samples long"
  else if ts.any fun t => decide (t < 0) then
    Except.error "array timestamps must not contain negative values"
  else Except.ok { family := fam, idxs := idxs, timestamps := ts, is_outlier := outlier ts }

/-- The behavioural-data columns consumed by `extract_event`: the microsecond
timestamps and the three optional boolean event columns (`is_blink`,
`is_saccade`, `is_fixation`).  The raw gaze coordinates also indexed by
`extract_event` only feed the saccade/fixation constructors, whose derived
statistics live in files absent from the sources, so they are not modelled. -/
structure TrialBehavior where
  microseconds : List ℚ
  is_blink : Option (List Bool)
  is_saccade : Option (List Bool)
  is_fixation : Option (List Bool)

def TrialBehavior.maskFor (tr : TrialBehavior) : EventFamily → Option (List Bool)
  | EventFamily.blink => tr.is_blink
  | EventFamily.saccade => tr.is_saccade
  | EventFamily.fixation => tr.is_fixation

/-- The membership test `event_type in [BLINK, SACCADE, FIXATION]` of
`extract_event` (after lower-casing). -/
def parseEventFamily (s : String) : Option EventFamily :=
  if s = "blink" then some EventFamily.blink
  else if s = "saccade" then some EventFamily.saccade
  else if s = "fixation" then some EventFamily.fixation
  else none

/-- Embedding of `_split_samples_between_events` (lines 65–72 of `extract_events.py`):
`np.nonzero` of the mask, early return `[]` on no `True` entry, then
`np.split` at every position where `np.diff != 1`. -/
def split_samples_between_events (is_event : List Bool) : List (List ℕ) :=
  let idxs := nonzeroIdxs is_event
  if idxs.isEmpty then []
  else splitWhen (fun a b => decide (b - a ≠ 1)) idxs

/-- The per-run event construction of `extract_event` (lines 43–57): one event
per index run, carrying `timestamps[idxs]`; the first constructor error
propagates. -/
def buildEvents (fam : EventFamily) (outlier : List ℚ → Bool) (ts : List ℚ) :
    List (List ℕ) → Except String (List GazeEvent)
  | [] => Except.ok []
  | c :: cs =>
    match mkGazeEvent fam outlier (c.map fun i => ts.getD i 0) c,
          buildEvents fam outlier ts cs with
    | Except.ok e, Except.ok rest => Except.ok (e :: rest)
    | Except.error msg, _ => Except.error msg
    | _, Except.error msg => Except.error msg

/-- The sort key `lambda event: event.start_time` used by `list.sort`. -/
def eventLE (a b : GazeEvent) : Bool :=
  decide (a.start_time ≤ b.start_time)

/-- Dispatch of the per-family `is_outlier` rule: blink from the sources,
saccade and fixation from the caller (their classes are absent from the
sources). -/
def outlierFor (sacOutlier fixOutlier : List ℚ → Bool) : EventFamily → List ℚ → Bool
  | EventFamily.blink => blinkIsOutlier
  | EventFamily.saccade => sacOutlier
  | EventFamily.fixation => fixOutlier

/-- Embedding of `extract_event` (lines 23–62 of `extract_events.py`): lower-case the event
type, reject unknown types (`NotImplementedError`) and missing columns
(`ValueError`), convert microseconds to milliseconds, check the length match,
split the mask into contiguous runs, build one event per run, optionally drop
outliers, and sort by `start_time`. -/
def extract_event (tr : TrialBehavior) (sacOutlier fixOutlier : List ℚ → Bool)
    (event_type : String) (drop_outliers : Bool) : Except String (List GazeEvent) :=
  match parseEventFamily (lowerString event_type) with
  | none => Except.error "event_type must be one of [blink, saccade, fixation]"
  | some fam =>
    match tr.maskFor fam with
    | none => Except.error "Behavioral Data does not contain the event column"
    | some mask =>
      let timestamps := tr.microseconds.map fun t => t / 1000
      if timestamps.length ≠ mask.length then
        Except.error "Arrays of timestamps and the event column must have the same length"
      else
        match buildEvents fam (outlierFor sacOutlier fixOutlier fam) timestamps
            (split_samples_between_events mask) with
        | Except.error msg => Except.error msg
        | Except.ok evs =>
          let evs := if drop_outliers then evs.filter fun e => ! e.is_outlier else evs
          Except.ok (evs.mergeSort eventLE)

/-- Embedding of `extract_all_events` (lines 9–20 of `extract_events.py`): blink, saccade
and fixation extraction in that order (each with the default
`drop_outliers=False`), concatenation, optional outlier drop, and a final sort
by `start_time`. -/
def extract_all_events (tr : TrialBehavior) (sacOutlier fixOutlier : List ℚ → Bool)
    (drop_outliers : Bool) : Except String (List GazeEvent) :=
  match extract_event tr sacOutlier fixOutlier "blink" false,
        extract_event tr sacOutlier fixOutlier "saccade" false,
        extract_event tr sacOutlier fixOutlier "fixation" false with
  | Except.ok bs, Except.ok ss, Except.ok fs =>
    let all := bs ++ ss ++ fs
    let all := if drop_outliers then all.filter fun e => ! e.is_outlier else all
    Except.ok (all.mergeSort eventLE)
  | Except.error msg, _, _ => Except.error msg
  | _, Except.error msg, _ => Except.error msg
  | _, _, Except.error msg => Except.error msg

/-! ### LWS instance classifier (`src/LWS/subject_analysis/lws_instances.py`)

A fixation enters the classifier through the fields the criteria read:
`start_time`, `end_time`, `visual_angle_to_closest_target`,
`closest_target_id`, and the result of
`is_in_rectangle(STIMULUS_BOTTOM_STRIP_TOP_LEFT, STIMULUS_BOTTOM_STRIP_BOTTOM_RIGHT)`.
The geometric test itself lives in `LWSFixationEvent.py`, absent from the
sources; modelled from the spec ("`f_next` falls inside the stimulus's
target-helper strip region") it enters as the boolean field
`in_bottom_strip`.  The per-target identification table produced by
`_target_identification_data` enters as a function `time_identified` from
target id to `Option ℚ` (`none` models the NaN of a never-identified target).
`SaccadeEvent.MAX_DURATION` lives in `SaccadeEvent.py`, absent from the
sources; it enters as the parameter `max_saccade_duration`. -/

structure LWSFixation where
  start_time : ℚ
  end_time : ℚ
  visual_angle_to_closest_target : ℚ
  closest_target_id : ℕ
  in_bottom_strip : Bool
deriving DecidableEq

/-- Embedding of `_check_lws_instance_standalone_criteria` (lines 140–164):
`False` when the fixation ends exactly at the trial's end time; `False` when
the fixation is farther than `proximity_threshold` from its closest target;
`True` when the closest target was never identified; otherwise `True` iff the
fixation ended strictly before the identification time. -/
def check_lws_instance_standalone_criteria (trial_end_time : ℚ)
    (time_identified : ℕ → Option ℚ) (proximity_threshold : ℚ) (f : LWSFixation) : Bool :=
  if f.end_time = trial_end_time then false
  else if proximity_threshold < f.visual_angle_to_closest_target then false
  else
    match time_identified f.closest_target_id with
    | none => true
    | some t => decide (f.end_time < t)

/-- Embedding of `_check_lws_instance_pairwise_criteria` (lines 167–194):
`False` when the next fixation is in the bottom-strip (target-helper) region;
`True` when the next fixation is on a different target; `True` when the next
fixation started more than `max_saccade_duration` after the current one ended;
otherwise the classification of the next fixation. -/
def check_lws_instance_pairwise_criteria (max_saccade_duration : ℚ)
    (curr_fixation next_fixation : LWSFixation)
    (is_next_fixation_lws_instance : Bool) : Bool :=
  if next_fixation.in_bottom_strip then false
  else if next_fixation.closest_target_id ≠ curr_fixation.closest_target_id then true
  else if max_saccade_duration < next_fixation.start_time - curr_fixation.end_time then true
  else is_next_fixation_lws_instance

/-- A slot of the trial's ordered gaze-event sequence: a fixation (with the
fields the classifier reads) or any other event (blink/saccade), whose label
slot stays NaN. -/
inductive LWSEvent where
  | fixation (f : LWSFixation)
  | nonFixation
deriving DecidableEq

/-- The part of `LWSTrial` the classifier consumes: the trial end time and the
ordered gaze-event sequence. -/
structure LWSTrialModel where
  end_time : ℚ
  gaze_events : List LWSEvent

/-- Embedding of `trial.get_gaze_events(event_type=FIXATION)`: the fixation sub-sequence in
order. -/
def LWSTrialModel.fixations (tr : LWSTrialModel) : List LWSFixation :=
  tr.gaze_events.filterMap fun e =>
    match e with
    | LWSEvent.fixation f => some f
    | LWSEvent.nonFixation => none

/-- The backward pass of `identify_lws_instances` (lines 55–75), expressed as a
right fold over the fixation sub-sequence: the last fixation is labelled by the
standalone criterion alone; every earlier fixation is labelled `False` unless
its standalone criterion holds and the pairwise criterion against its successor
(and the successor's already-computed label) holds. -/
def lwsLabels (trial_end_time : ℚ) (time_identified : ℕ → Option ℚ)
    (proximity_threshold max_saccade_duration : ℚ) : List LWSFixation → List Bool
  | [] => []
  | [f] => [check_lws_instance_standalone_criteria trial_end_time time_identified
      proximity_threshold f]
  | f :: g :: fs =>
    let rest := lwsLabels trial_end_time time_identified proximity_threshold
      max_saccade_duration (g :: fs)
    let lbl :=
      if ! check_lws_instance_standalone_criteria trial_end_time time_identified
          proximity_threshold f then false
      else if ! check_lws_instance_pairwise_criteria max_saccade_duration f g
          (rest.headD false) then false
      else true
    lbl :: rest

/-- Alignment of the fixation labels with the full gaze-event sequence
(`np.full_like(events, np.nan)` plus indexed writes): fixation slots receive
their label in order, non-fixation slots stay `none` (NaN). -/
def scatterLabels : List LWSEvent → List Bool → List (Option Bool)
  | [], _ => []
  | LWSEvent.nonFixation :: es, ls => none :: scatterLabels es ls
  | LWSEvent.fixation _ :: es, ls => some (ls.headD false) :: scatterLabels es ls.tail

/-- Embedding of `identify_lws_instances` (lines 36–76).  `fixation_idxs[-1]` on a trial
without fixations raises `IndexError`; otherwise the labels of the backward
pass, scattered over the gaze-event sequence. -/
def identify_lws_instances (tr : LWSTrialModel) (time_identified : ℕ → Option ℚ)
    (proximity_threshold max_saccade_duration : ℚ) : Except String (List (Option Bool)) :=
  let fixs := tr.fixations
  if fixs.isEmpty then
    Except.error "IndexError: index -1 is out of bounds for axis 0 with size 0"
  else Except.ok (scatterLabels tr.gaze_events
    (lwsLabels tr.end_time time_identified proximity_threshold max_saccade_duration fixs))

/-- Embedding of `calculate_lws_rate` (lines 15–33): `np.nansum` of the label array (the
number of `True` labels) divided by the number of fixations — optionally only
the target-proximal ones; `0` when both counts are zero; `ZeroDivisionError`
when instances exist without fixations. -/
def calculate_lws_rate (tr : LWSTrialModel) (time_identified : ℕ → Option ℚ)
    (proximity_threshold max_saccade_duration : ℚ) (proximal_fixations_only : Bool) :
    Except String ℚ :=
  match identify_lws_instances tr time_identified proximity_threshold max_saccade_duration with
  | Except.error msg => Except.error msg
  | Except.ok labels =>
    let num_lws_instances : ℕ := (labels.filterMap id).count true
    let fixations := tr.fixations
    let fixations := if proximal_fixations_only then
        fixations.filter fun f => decide (f.visual_angle_to_closest_target ≤ proximity_threshold)
      else fixations
    let num_fixations := fixations.length
    if 0 < num_fixations then Except.ok ((num_lws_instances : ℚ) / (num_fixations : ℚ))
    else if num_lws_instances = 0 then Except.ok 0
    else Except.error "ZeroDivisionError"

/-! ### Detector factory (`src/EventDetectors/scripts/detect_events.py`) -/

/-- The variant-specific keyword arguments `_get_event_detector` reads with
`kwargs.get(..., None)`; `none` models an absent keyword. -/
structure FactoryKwargs where
  missing_value : Option ℚ
  derivation_window_size : Option ℕ
  lambda_noise_threshold : Option ℕ
  velocity_threshold : Option ℚ

/-- The resolved detector returned by the factory, carrying the
variant-specific parameters (the common `sampling_rate`, `min_duration` and
`inter_event_time` are passed to every variant uniformly and play no role in
the dispatch). -/
inductive DetectorSpec where
  | missingData (missing_value : Option ℚ)
  | pupilSize
  | engbert (derivation_window_size lambda_noise_threshold : ℕ)
  | ivt (velocity_threshold : ℚ)
  | idt
deriving DecidableEq

/-- Embedding of `_get_event_detector` (lines 143–198): dispatch on the lower-cased type
tag; the Engbert and IVT branches raise `ValueError` when a required keyword is
absent; an unrecognized tag raises the unknown-detector `ValueError`. -/
def get_event_detector (detector_type : String) (kw : FactoryKwargs) :
    Except String DetectorSpec :=
  let dt := lowerString detector_type
  if dt = "missing data" ∨ dt = "missing_data" then
    Except.ok (DetectorSpec.missingData kw.missing_value)
  else if dt = "pupil size" ∨ dt = "pupil_size" then Except.ok DetectorSpec.pupilSize
  else if dt = "engbert" then
    match kw.derivation_window_size with
    | none => Except.error "Derivation window size for EngbertSaccadeDetector not specified."
    | some dws =>
      match kw.lambda_noise_threshold with
      | none => Except.error "Lambda noise threshold for EngbertSaccadeDetector not specified."
      | some lnt => Except.ok (DetectorSpec.engbert dws lnt)
  else if dt = "ivt" then
    match kw.velocity_threshold with
    | none => Except.error "Velocity threshold for IVTFixationDetector not specified."
    | some vt => Except.ok (DetectorSpec.ivt vt)
  else if dt = "idt" then Except.ok DetectorSpec.idt
  else Except.error ("Unknown event detector type: " ++ detector_type)

/-! ### Helper lemmas -/

theorem nonzeroIdxsFrom_all_false : ∀ (l : List Bool) (k : ℕ),
    (∀ b ∈ l, b = false) → nonzeroIdxsFrom k l = []
  | [], _, _ => rfl
  | b :: bs, k, h => by
    have hb : b = false := h b (List.mem_cons_self b bs)
    have hrest := nonzeroIdxsFrom_all_false bs (k + 1) fun x hx => h x (List.mem_cons_of_mem b hx)
    simp [nonzeroIdxsFrom, hb, hrest]

/-! ### Claim theorems -/

/-- C1 (code bug): the specification demands that a trial with zero fixations
and zero LWS instances yield rate `0` (and that zero fixations with a nonzero
instance count raise the invariant error), and `calculate_lws_rate` indeed
guards both cases — but `identify_lws_instances`, which it calls first,
indexes `fixation_idxs[-1]` on the empty fixation-index array and raises
`IndexError` before either branch can run.  Evaluating the embedded code on a
trial whose only gaze event is a non-fixation shows the divergence. -/
theorem calculate_lws_rate_zero_fixations_raises :
    calculate_lws_rate { end_time := 1000, gaze_events := [LWSEvent.nonFixation] }
      (fun _ => none) 2 250 false =
      Except.error "IndexError: index -1 is out of bounds for axis 0 with size 0" := rfl

/-- C2: the LWS standalone criterion is `false` when the fixation ends at the
trial's end time (regardless of proximity); otherwise `false` when the
fixation is farther than the proximity threshold from its closest target;
otherwise `true` when the closest target was never identified; otherwise
`true` exactly when the fixation ended strictly before the identification
time. -/
theorem lws_standalone_criterion_cases (trial_end_time proximity_threshold : ℚ)
    (time_identified : ℕ → Option ℚ) (f : LWSFixation) :
    (f.end_time = trial_end_time →
      check_lws_instance_standalone_criteria trial_end_time time_identified
        proximity_threshold f = false) ∧
    (f.end_time ≠ trial_end_time →
      proximity_threshold < f.visual_angle_to_closest_target →
      check_lws_instance_standalone_criteria trial_end_time time_identified
        proximity_threshold f = false) ∧
    (f.end_time ≠ trial_end_time →
      f.visual_angle_to_closest_target ≤ proximity_threshold →
      time_identified f.closest_target_id = none →
      check_lws_instance_standalone_criteria trial_end_time time_identified
        proximity_threshold f = true) ∧
    (∀ t, f.end_time ≠ trial_end_time →
      f.visual_angle_to_closest_target ≤ proximity_threshold →
      time_identified f.closest_target_id = some t →
      (check_lws_instance_standalone_criteria trial_end_time time_identified
        proximity_threshold f = true ↔ f.end_time < t)) := by
  refine ⟨fun h => ?_, fun h hfar => ?_, fun h hnear hnone => ?_, fun t h hnear hsome => ?_⟩
  · simp [check_lws_instance_standalone_criteria, h]
  · simp [check_lws_instance_standalone_criteria, h, hfar]
  · simp [check_lws_instance_standalone_criteria, h, not_lt.mpr hnear, hnone]
  · simp [check_lws_instance_standalone_criteria, h, not_lt.mpr hnear, hsome]

/-- Witness for C2: a fixation ending at `100`, within threshold `2` of target
`0`, whose target is identified at `500`, in a trial ending at `1000`, is
classified `true` by the standalone criterion. -/
theorem lws_standalone_criterion_cases_witness :
    check_lws_instance_standalone_criteria 1000 (fun _ => some 500) 2
      { start_time := 0, end_time := 100, visual_angle_to_closest_target := 1,
        closest_target_id := 0, in_bottom_strip := false } = true :=
  ((lws_standalone_criterion_cases 1000 2 (fun _ => some 500)
      { start_time := 0, end_time := 100, visual_angle_to_closest_target := 1,
        closest_target_id := 0, in_bottom_strip := false }).2.2.2 500
    (by decide) (by decide) rfl).mpr (by decide)

/-- C8: the Engbert candidate search raises `ValueError` on mismatched array
lengths, raises `ValueError` when the arrays are shorter than twice the
derivation window, and passes both validation checks otherwise. -/
theorem engbert_candidates_validation (derivation_window_size : ℕ) (x y : List ℚ) :
    (x.length ≠ y.length →
      find_candidates_checks derivation_window_size x y =
        Except.error "x and y must be of the same length") ∧
    (x.length = y.length → x.length < 2 * derivation_window_size →
      find_candidates_checks derivation_window_size x y =
        Except.error "x and y must be of length at least 2 * derivation_window_size") ∧
    (x.length = y.length → 2 * derivation_window_size ≤ x.length →
      find_candidates_checks derivation_window_size x y = Except.ok ()) := by
  refine ⟨fun h => ?_, fun h hshort => ?_, fun h hlong => ?_⟩
  · simp [find_candidates_checks, h]
  · have h2 : y.length < 2 * derivation_window_size := h ▸ hshort
    simp [find_candidates_checks, h, h2]
  · have h2 : 2 * derivation_window_size ≤ y.length := h ▸ hlong
    simp [find_candidates_checks, h, not_lt.mpr h2]

/-- Witness for C8: two equal-length arrays of six samples pass validation for
the default window size `3`. -/
theorem engbert_candidates_validation_witness :
    find_candidates_checks 3 [0, 1, 2, 3, 4, 5] [0, 0, 0, 0, 0, 0] = Except.ok () :=
  (engbert_candidates_validation 3 [0, 1, 2, 3, 4, 5] [0, 0, 0, 0, 0, 0]).2.2 rfl
    (by decide)

/-- The type tags recognized by `_get_event_detector` (after lower-casing). -/
def recognizedDetectorTags : List String :=
  ["missing data", "missing_data", "pupil size", "pupil_size", "engbert", "ivt", "idt"]

/-- C9: the detector factory raises the unknown-detector error for every type
string whose lower-casing is not a recognized tag, and for the Engbert tag it
raises the missing-required-parameter error when the derivation window size or
the lambda noise threshold keyword is absent. -/
theorem detector_factory_unknown_and_missing (detector_type : String) (kw : FactoryKwargs) :
    (lowerString detector_type ∉ recognizedDetectorTags →
      get_event_detector detector_type kw =
        Except.error ("Unknown event detector type: " ++ detector_type)) ∧
    (lowerString detector_type = "engbert" → kw.derivation_window_size = none →
      get_event_detector detector_type kw =
        Except.error "Derivation window size for EngbertSaccadeDetector not specified.") ∧
    (∀ d, lowerString detector_type = "engbert" → kw.derivation_window_size = some d →
      kw.lambda_noise_threshold = none →
      get_event_detector detector_type kw =
        Except.error "Lambda noise threshold for EngbertSaccadeDetector not specified.") := by
  refine ⟨fun h => ?_, fun h hd => ?_, fun d h hd hl => ?_⟩
  · simp only [recognizedDetectorTags, List.mem_cons, List.not_mem_nil, or_false,
      not_or] at h
    obtain ⟨h1, h2, h3, h4, h5, h6, h7⟩ := h
    simp [get_event_detector, h1, h2, h3, h4, h5, h6, h7]
  · simp [get_event_detector, h, hd]
  · simp [get_event_detector, h, hd, hl]

/-- Witness for C9: the tag `"Engbert"` with no derivation window size raises
the missing-parameter error. -/
theorem detector_factory_unknown_and_missing_witness :
    get_event_detector "Engbert"
      { missing_value := none, derivation_window_size := none,
        lambda_noise_threshold := none, velocity_threshold := none } =
      Except.error "Derivation window size for EngbertSaccadeDetector not specified." :=
  (detector_factory_unknown_and_missing "Engbert"
    { missing_value := none, derivation_window_size := none,
      lambda_noise_threshold := none, velocity_threshold := none }).2.1 rfl rfl

/-- C10: whenever no candidate run survives the post-filter (the start/end
list is empty), `detect` raises the `np.concatenate` error instead of
returning an all-`False` mask of the input length. -/
theorem engbert_detect_no_surviving_runs_raises (mBetween mWithin : ℕ) (cand : List Bool)
    (h : find_start_end_indices mBetween mWithin cand = Except.ok []) :
    engbertDetect mBetween mWithin cand =
      Except.error "need at least one array to concatenate" := by
  simp [engbertDetect, h]

/-- Witness for C10: a six-sample input (valid for the default window size 3)
whose single candidate run is too short leaves no surviving run, so `detect`
raises. -/
theorem engbert_detect_no_surviving_runs_raises_witness :
    find_start_end_indices 1 1 [true, false, false, false, false, false] = Except.ok [] ∧
    engbertDetect 1 1 [true, false, false, false, false, false] =
      Except.error "need at least one array to concatenate" :=
  ⟨rfl, engbert_detect_no_surviving_runs_raises 1 1
    [true, false, false, false, false, false] rfl⟩

/-- On a mask with no `True` entry the index splitting returns no run. -/
theorem split_samples_all_false (mask : List Bool) (hfalse : ∀ b ∈ mask, b = false) :
    split_samples_between_events mask = [] := by
  simp [split_samples_between_events, nonzeroIdxs, nonzeroIdxsFrom_all_false mask 0 hfalse]

/-- Helper: an all-`False` event column yields the empty event list. -/
theorem extract_event_all_false_helper (tr : TrialBehavior)
    (sacOutlier fixOutlier : List ℚ → Bool)
    (event_type : String) (drop_outliers : Bool) (fam : EventFamily) (mask : List Bool)
    (hparse : parseEventFamily (lowerString event_type) = some fam)
    (hmask : tr.maskFor fam = some mask)
    (hlen : tr.microseconds.length = mask.length)
    (hfalse : ∀ b ∈ mask, b = false) :
    extract_event tr sacOutlier fixOutlier event_type drop_outliers = Except.ok [] := by
  simp [extract_event, hparse, hmask, split_samples_all_false mask hfalse, hlen,
    buildEvents, List.mergeSort_nil]

/-- C6: for every trial whose event-mask column holds no `True` entry (and
matches the timestamps in length), `extract_event` returns the empty event
list rather than raising. -/
theorem extract_event_all_false_mask (tr : TrialBehavior) (sacOutlier fixOutlier : List ℚ → Bool)
    (event_type : String) (drop_outliers : Bool) (fam : EventFamily) (mask : List Bool)
    (hparse : parseEventFamily (lowerString event_type) = some fam)
    (hmask : tr.maskFor fam = some mask)
    (hlen : tr.microseconds.length = mask.length)
    (hfalse : ∀ b ∈ mask, b = false) :
    extract_event tr sacOutlier fixOutlier event_type drop_outliers = Except.ok [] :=
  extract_event_all_false_helper tr sacOutlier fixOutlier event_type drop_outliers
    fam mask hparse hmask hlen hfalse

/-- Witness for C6: a two-sample trial with an all-`False` blink column yields
the empty blink-event list. -/
theorem extract_event_all_false_mask_witness :
    extract_event
      { microseconds := [0, 1000], is_blink := some [false, false],
        is_saccade := none, is_fixation := none }
      (fun _ => false) (fun _ => false) "Blink" false = Except.ok [] :=
  extract_event_all_false_mask _ _ _ _ _ EventFamily.blink [false, false]
    rfl rfl rfl (by decide)

/-- The backward pass never produces an empty label list on a nonempty
fixation list. -/
theorem lwsLabels_cons_ne_nil (trial_end_time proximity_threshold max_saccade_duration : ℚ)
    (time_identified : ℕ → Option ℚ) (x : LWSFixation) (xs : List LWSFixation) :
    lwsLabels trial_end_time time_identified proximity_threshold max_saccade_duration
      (x :: xs) ≠ [] := by
  cases xs <;> simp [lwsLabels]

/-- Unfolding equation of the backward pass on two or more fixations. -/
theorem lwsLabels_cons_cons (trial_end_time proximity_threshold max_saccade_duration : ℚ)
    (time_identified : ℕ → Option ℚ) (f g : LWSFixation) (fs : List LWSFixation) :
    lwsLabels trial_end_time time_identified proximity_threshold max_saccade_duration
      (f :: g :: fs) =
      (if ! check_lws_instance_standalone_criteria trial_end_time time_identified
          proximity_threshold f then false
       else if ! check_lws_instance_pairwise_criteria max_saccade_duration f g
          ((lwsLabels trial_end_time time_identified proximity_threshold
            max_saccade_duration (g :: fs)).headD false) then false
       else true) ::
      lwsLabels trial_end_time time_identified proximity_threshold max_saccade_duration
        (g :: fs) := rfl

/-- The last label of the backward pass is the standalone criterion of the
last fixation. -/
theorem lwsLabels_getLast (trial_end_time proximity_threshold max_saccade_duration : ℚ)
    (time_identified : ℕ → Option ℚ) :
    ∀ (fs : List LWSFixation) (f : LWSFixation),
    (lwsLabels trial_end_time time_identified proximity_threshold max_saccade_duration
      (fs ++ [f])).getLast? =
      some (check_lws_instance_standalone_criteria trial_end_time time_identified
        proximity_threshold f)
  | [], f => by simp [lwsLabels]
  | [g], f => by simp [lwsLabels]
  | g :: g2 :: fs, f => by
    have ih := lwsLabels_getLast trial_end_time proximity_threshold max_saccade_duration
      time_identified (g2 :: fs) f
    rw [List.cons_append] at ih
    obtain ⟨b, l, hb⟩ : ∃ b l,
        lwsLabels trial_end_time time_identified proximity_threshold max_saccade_duration
          (g2 :: (fs ++ [f])) = b :: l := by
      cases hfs : fs ++ [f] with
      | nil => exact absurd hfs (List.append_ne_nil_of_right_ne_nil fs (by simp))
      | cons x xs =>
        exact ⟨_, _, lwsLabels_cons_cons trial_end_time proximity_threshold
          max_saccade_duration time_identified g2 x xs⟩
    rw [List.cons_append, List.cons_append, lwsLabels_cons_cons, hb,
      List.getLast?_cons_cons, ← hb]
    exact ih

/-- C3: the pairwise criterion is `false` when the successor lies in the
target-helper strip; otherwise `true` when the successor's closest target
differs; otherwise `true` when the inter-fixation gap exceeds the maximum
saccade duration; otherwise it equals the successor's classification.
Consequently, inside the backward pass, a fixation whose standalone criterion
holds and whose successor is a same-target, temporally close fixation outside
the strip receives exactly its successor's label, and the last fixation is
classified by the standalone criterion alone. -/
theorem lws_pairwise_criterion_and_chain
    (trial_end_time proximity_threshold max_saccade_duration : ℚ)
    (time_identified : ℕ → Option ℚ) :
    (∀ (curr next : LWSFixation) (b : Bool), next.in_bottom_strip = true →
      check_lws_instance_pairwise_criteria max_saccade_duration curr next b = false) ∧
    (∀ (curr next : LWSFixation) (b : Bool), next.in_bottom_strip = false →
      next.closest_target_id ≠ curr.closest_target_id →
      check_lws_instance_pairwise_criteria max_saccade_duration curr next b = true) ∧
    (∀ (curr next : LWSFixation) (b : Bool), next.in_bottom_strip = false →
      next.closest_target_id = curr.closest_target_id →
      max_saccade_duration < next.start_time - curr.end_time →
      check_lws_instance_pairwise_criteria max_saccade_duration curr next b = true) ∧
    (∀ (curr next : LWSFixation) (b : Bool), next.in_bottom_strip = false →
      next.closest_target_id = curr.closest_target_id →
      next.start_time - curr.end_time ≤ max_saccade_duration →
      check_lws_instance_pairwise_criteria max_saccade_duration curr next b = b) ∧
    (∀ (f g : LWSFixation) (fs : List LWSFixation),
      check_lws_instance_standalone_criteria trial_end_time time_identified
        proximity_threshold f = true →
      g.in_bottom_strip = false →
      g.closest_target_id = f.closest_target_id →
      g.start_time - f.end_time ≤ max_saccade_duration →
      (lwsLabels trial_end_time time_identified proximity_threshold max_saccade_duration
        (f :: g :: fs)).headD false =
      (lwsLabels trial_end_time time_identified proximity_threshold max_saccade_duration
        (g :: fs)).headD false) ∧
    (∀ (fs : List LWSFixation) (f : LWSFixation),
      (lwsLabels trial_end_time time_identified proximity_threshold max_saccade_duration
        (fs ++ [f])).getLast? =
      some (check_lws_instance_standalone_criteria trial_end_time time_identified
        proximity_threshold f)) := by
  refine ⟨fun curr next b hstrip => ?_, fun curr next b hstrip hdiff => ?_,
    fun curr next b hstrip hsame hfar => ?_, fun curr next b hstrip hsame hgap => ?_,
    fun f g fs hstand hstrip hsame hgap => ?_,
    lwsLabels_getLast trial_end_time proximity_threshold max_saccade_duration
      time_identified⟩
  · simp [check_lws_instance_pairwise_criteria, hstrip]
  · simp [check_lws_instance_pairwise_criteria, hstrip, hdiff]
  · simp [check_lws_instance_pairwise_criteria, hstrip, hsame, hfar]
  · simp [check_lws_instance_pairwise_criteria, hstrip, hsame, not_lt.mpr hgap]
  · have hpair : ∀ b : Bool,
        check_lws_instance_pairwise_criteria max_saccade_duration f g b = b := fun b => by
      simp [check_lws_instance_pairwise_criteria, hstrip, hsame, not_lt.mpr hgap]
    rw [lwsLabels_cons_cons, List.headD_cons, hstand, hpair]
    cases (lwsLabels trial_end_time time_identified proximity_threshold
      max_saccade_duration (g :: fs)).headD false <;> simp

/-- The 50 ms gap between the two witness fixations is below the 250 ms bound. -/
theorem lws_chain_witness_gap :
    ({ start_time := 150, end_time := 300, visual_angle_to_closest_target := 1,
       closest_target_id := 0, in_bottom_strip := false } : LWSFixation).start_time -
    ({ start_time := 0, end_time := 100, visual_angle_to_closest_target := 1,
       closest_target_id := 0, in_bottom_strip := false } : LWSFixation).end_time ≤ 250 := by
  norm_num

/-- Witness for C3: two consecutive same-target fixations (gap 50 ms ≤ 250 ms,
successor outside the strip, standalone criterion of the first holding), where
the first fixation's label equals the second's. -/
theorem lws_pairwise_criterion_and_chain_witness :
    (lwsLabels 1000 (fun _ => none) 2 250
      [{ start_time := 0, end_time := 100, visual_angle_to_closest_target := 1,
         closest_target_id := 0, in_bottom_strip := false },
       { start_time := 150, end_time := 300, visual_angle_to_closest_target := 1,
         closest_target_id := 0, in_bottom_strip := false }]).headD false =
    (lwsLabels 1000 (fun _ => none) 2 250
      [{ start_time := 150, end_time := 300, visual_angle_to_closest_target := 1,
         closest_target_id := 0, in_bottom_strip := false }]).headD false :=
  (lws_pairwise_criterion_and_chain 1000 2 250 (fun _ => none)).2.2.2.2.1
    { start_time := 0, end_time := 100, visual_angle_to_closest_target := 1,
      closest_target_id := 0, in_bottom_strip := false }
    { start_time := 150, end_time := 300, visual_angle_to_closest_target := 1,
      closest_target_id := 0, in_bottom_strip := false }
    [] rfl rfl rfl lws_chain_witness_gap

/-! ### Lemmas about the run-splitting machinery -/

/-- Every index returned by `nonzeroIdxsFrom k` lies in `[k, k + length)`. -/
theorem nonzeroIdxsFrom_mem_bounds : ∀ (l : List Bool) (k i : ℕ),
    i ∈ nonzeroIdxsFrom k l → k ≤ i ∧ i < k + l.length
  | [], _, _, h => by simp [nonzeroIdxsFrom] at h
  | b :: bs, k, i, h => by
    by_cases hb : b
    · simp only [nonzeroIdxsFrom, hb, if_true, List.mem_cons] at h
      rcases h with rfl | h
      · simp
      · have := nonzeroIdxsFrom_mem_bounds bs (k + 1) i h
        constructor <;> [omega; (simp only [List.length_cons]; omega)]
    · simp only [nonzeroIdxsFrom, hb, if_false] at h
      have := nonzeroIdxsFrom_mem_bounds bs (k + 1) i h
      constructor <;> [omega; (simp only [List.length_cons]; omega)]

/-- The indices returned by `nonzeroIdxsFrom` are strictly increasing. -/
theorem nonzeroIdxsFrom_pairwise : ∀ (l : List Bool) (k : ℕ),
    (nonzeroIdxsFrom k l).Pairwise (· < ·)
  | [], _ => by simp [nonzeroIdxsFrom]
  | b :: bs, k => by
    have ih := nonzeroIdxsFrom_pairwise bs (k + 1)
    by_cases hb : b
    · simp only [nonzeroIdxsFrom, hb, if_true]
      exact List.Pairwise.cons
        (fun i hi => lt_of_lt_of_le (Nat.lt_succ_self k)
          (nonzeroIdxsFrom_mem_bounds bs (k + 1) i hi).1) ih
    · simpa [nonzeroIdxsFrom, hb] using ih

/-- The function `splitWhen` maps a nonempty list to a nonempty list. -/
theorem splitWhen_cons_ne_nil (p : ℕ → ℕ → Bool) (x : ℕ) (xs : List ℕ) :
    splitWhen p (x :: xs) ≠ [] := by
  cases xs with
  | nil => simp [splitWhen]
  | cons y rest =>
    cases h : splitWhen p (y :: rest) with
    | nil => simp [splitWhen, h]
    | cons g gs =>
      simp only [splitWhen, h]
      split <;> simp

/-- Flattening the chunks produced by `splitWhen` recovers the input. -/
theorem splitWhen_flatten (p : ℕ → ℕ → Bool) : ∀ l : List ℕ, (splitWhen p l).flatten = l
  | [] => rfl
  | [x] => by simp [splitWhen]
  | x :: y :: rest => by
    have ih := splitWhen_flatten p (y :: rest)
    cases h : splitWhen p (y :: rest) with
    | nil => exact absurd h (splitWhen_cons_ne_nil p y rest)
    | cons g gs =>
      rw [h] at ih
      by_cases hp : p x y
      · simpa [splitWhen, h, hp] using ih
      · simpa [splitWhen, h, hp] using ih

/-- Every chunk produced by `splitWhen` is nonempty. -/
theorem splitWhen_chunks_ne_nil (p : ℕ → ℕ → Bool) : ∀ (l : List ℕ) (c : List ℕ),
    c ∈ splitWhen p l → c ≠ []
  | [], c, h => by simp [splitWhen] at h
  | [x], c, h => by
    simp [splitWhen] at h
    simp [h]
  | x :: y :: rest, c, h => by
    cases hs : splitWhen p (y :: rest) with
    | nil => exact absurd hs (splitWhen_cons_ne_nil p y rest)
    | cons g gs =>
      simp only [splitWhen, hs] at h
      split at h
      · rcases List.mem_cons.mp h with rfl | h2
        · simp
        · exact splitWhen_chunks_ne_nil p (y :: rest) c (hs ▸ h2)
      · rcases List.mem_cons.mp h with rfl | h2
        · simp
        · exact splitWhen_chunks_ne_nil p (y :: rest) c
            (hs ▸ List.mem_cons_of_mem g h2)

/-- Chunks produced by `splitWhen` from a strictly increasing list are
element-wise strictly ordered. -/
theorem splitWhen_chunks_strong (p : ℕ → ℕ → Bool) (l : List ℕ)
    (hl : l.Pairwise (· < ·)) :
    (splitWhen p l).Pairwise (fun c c2 => ∀ x ∈ c, ∀ y ∈ c2, x < y) := by
  have hfl : (splitWhen p l).flatten.Pairwise (· < ·) := by
    rw [splitWhen_flatten]; exact hl
  exact (List.pairwise_flatten.mp hfl).2

/-- One-step unfolding of `nonzeroIdxsFrom` on a `False` sample. -/
theorem nonzeroIdxsFrom_cons_false (k : ℕ) (bs : List Bool) :
    nonzeroIdxsFrom k (false :: bs) = nonzeroIdxsFrom (k + 1) bs := by
  simp [nonzeroIdxsFrom]

/-- One-step unfolding of `nonzeroIdxsFrom` on a `True` sample. -/
theorem nonzeroIdxsFrom_cons_true (k : ℕ) (bs : List Bool) :
    nonzeroIdxsFrom k (true :: bs) = k :: nonzeroIdxsFrom (k + 1) bs := by
  simp [nonzeroIdxsFrom]

/-- Leading `False` samples shift the index origin. -/
theorem nonzeroIdxsFrom_replicate_false : ∀ (n k : ℕ) (bs : List Bool),
    nonzeroIdxsFrom k (List.replicate n false ++ bs) = nonzeroIdxsFrom (k + n) bs
  | 0, k, bs => by simp [nonzeroIdxsFrom]
  | n + 1, k, bs => by
    have ih := nonzeroIdxsFrom_replicate_false n (k + 1) bs
    have hkn : k + 1 + n = k + (n + 1) := by omega
    rw [hkn] at ih
    rw [List.replicate_succ, List.cons_append, nonzeroIdxsFrom_cons_false, ih]

/-- A block of `True` samples contributes a contiguous index range. -/
theorem nonzeroIdxsFrom_replicate_true : ∀ (n k : ℕ) (bs : List Bool),
    nonzeroIdxsFrom k (List.replicate n true ++ bs) =
      List.range' k n ++ nonzeroIdxsFrom (k + n) bs
  | 0, k, bs => by simp [nonzeroIdxsFrom]
  | n + 1, k, bs => by
    have ih := nonzeroIdxsFrom_replicate_true n (k + 1) bs
    have hkn : k + 1 + n = k + (n + 1) := by omega
    rw [hkn] at ih
    rw [List.replicate_succ, List.cons_append, nonzeroIdxsFrom_cons_true, ih,
      List.range'_succ, List.cons_append]

/-- A predicate that never cuts between consecutive integers keeps a
contiguous index range in one chunk. -/
theorem splitWhen_range' (p : ℕ → ℕ → Bool) (hp : ∀ a, p a (a + 1) = false) :
    ∀ (l a : ℕ), splitWhen p (List.range' a (l + 1)) = [List.range' a (l + 1)]
  | 0, a => by simp [splitWhen]
  | n + 1, a => by
    have ih := splitWhen_range' p hp n (a + 1)
    have h2 : List.range' (a + 1) (n + 1) = (a + 1) :: List.range' (a + 1 + 1) n :=
      List.range'_succ (a + 1) n 1
    rw [List.range'_succ a (n + 1) 1, h2]
    rw [h2] at ih
    simp only [splitWhen, ih, hp a]
    simp

/-- When the predicate cuts between the last element of a contiguous range and
the next index, `splitWhen` separates them. -/
theorem splitWhen_run_append_split (p : ℕ → ℕ → Bool) (hp : ∀ a, p a (a + 1) = false) :
    ∀ (l a c : ℕ) (ys : List ℕ), p (a + l) c = true →
    splitWhen p (List.range' a (l + 1) ++ c :: ys) =
      List.range' a (l + 1) :: splitWhen p (c :: ys)
  | 0, a, c, ys, hpc => by
    cases hs : splitWhen p (c :: ys) with
    | nil => exact absurd hs (splitWhen_cons_ne_nil p c ys)
    | cons g gs =>
      rw [Nat.add_zero] at hpc
      simp only [List.range'_one, List.singleton_append, splitWhen, hs, hpc, if_true]
      simp
  | n + 1, a, c, ys, hpc => by
    have hpc2 : p (a + 1 + n) c = true := by
      have : a + 1 + n = a + (n + 1) := by omega
      rw [this]; exact hpc
    have ih := splitWhen_run_append_split p hp n (a + 1) c ys hpc2
    have h2 : List.range' (a + 1) (n + 1) = (a + 1) :: List.range' (a + 1 + 1) n :=
      List.range'_succ (a + 1) n 1
    rw [List.range'_succ a (n + 1) 1, h2, List.cons_append, List.cons_append]
    rw [h2, List.cons_append] at ih
    simp only [splitWhen, ih, hp a]
    simp

/-- When the predicate does not cut between the last element of a contiguous
range and the next index, `splitWhen` merges the range into the next chunk. -/
theorem splitWhen_run_append_merge (p : ℕ → ℕ → Bool) (hp : ∀ a, p a (a + 1) = false) :
    ∀ (l a c : ℕ) (ys : List ℕ) (g : List ℕ) (gs : List (List ℕ)),
    p (a + l) c = false →
    splitWhen p (c :: ys) = g :: gs →
    splitWhen p (List.range' a (l + 1) ++ c :: ys) =
      (List.range' a (l + 1) ++ g) :: gs
  | 0, a, c, ys, g, gs, hpc, hs => by
    rw [Nat.add_zero] at hpc
    simp only [List.range'_one, List.singleton_append, splitWhen, hs, hpc,
      if_false]
    simp
  | n + 1, a, c, ys, g, gs, hpc, hs => by
    have hpc2 : p (a + 1 + n) c = false := by
      have : a + 1 + n = a + (n + 1) := by omega
      rw [this]; exact hpc
    have ih := splitWhen_run_append_merge p hp n (a + 1) c ys g gs hpc2 hs
    have h2 : List.range' (a + 1) (n + 1) = (a + 1) :: List.range' (a + 1 + 1) n :=
      List.range'_succ (a + 1) n 1
    rw [List.range'_succ a (n + 1) 1, h2, List.cons_append, List.cons_append]
    rw [h2, List.cons_append] at ih
    simp only [splitWhen, ih, hp a]
    simp

/-- With at least one candidate, the detector's run-merging stage is
`splitWhen` on the candidate indices. -/
theorem mergeCandidateRuns_of_ne_nil (mBetween : ℕ) (cand : List Bool)
    (h : nonzeroIdxs cand ≠ []) :
    mergeCandidateRuns mBetween cand =
      splitWhen (fun a b => decide (mBetween < b - a)) (nonzeroIdxs cand) := by
  rw [mergeCandidateRuns]
  simp [h]

/-- C4: in the Engbert post-filter, a candidate array holding exactly two
candidate runs (of lengths `l1`, `l2`, separated by `g ≥ 1` non-candidate
samples, so the index difference between the end of the first run and the
start of the second — the gap in samples — is `g + 1`) merges into a single
run when that gap is at most `mBetween` (= inter_event_time in samples,
assumed ≥ 1) and stays two separate runs when the gap is strictly larger. -/
theorem engbert_inter_event_merge (mBetween a1 l1 g l2 t : ℕ)
    (h1 : 1 ≤ l1) (h2 : 1 ≤ l2) (hg : 1 ≤ g) (hm : 1 ≤ mBetween) :
    (g + 1 ≤ mBetween →
      mergeCandidateRuns mBetween
        (List.replicate a1 false ++ List.replicate l1 true ++ List.replicate g false ++
          List.replicate l2 true ++ List.replicate t false) =
        [List.range' a1 l1 ++ List.range' (a1 + l1 + g) l2]) ∧
    (mBetween < g + 1 →
      mergeCandidateRuns mBetween
        (List.replicate a1 false ++ List.replicate l1 true ++ List.replicate g false ++
          List.replicate l2 true ++ List.replicate t false) =
        [List.range' a1 l1, List.range' (a1 + l1 + g) l2]) := by
  obtain ⟨l1p, rfl⟩ : ∃ m, l1 = m + 1 := ⟨l1 - 1, by omega⟩
  obtain ⟨l2p, rfl⟩ : ∃ m, l2 = m + 1 := ⟨l2 - 1, by omega⟩
  set p : ℕ → ℕ → Bool := fun a b => decide (mBetween < b - a) with hpdef
  have hp : ∀ a, p a (a + 1) = false := fun a => by
    simp only [hpdef, decide_eq_false_iff_not, not_lt]
    omega
  have hidx : nonzeroIdxs
      (List.replicate a1 false ++ List.replicate (l1p + 1) true ++
        List.replicate g false ++ List.replicate (l2p + 1) true ++
        List.replicate t false) =
      List.range' a1 (l1p + 1) ++ List.range' (a1 + (l1p + 1) + g) (l2p + 1) := by
    unfold nonzeroIdxs
    simp only [List.append_assoc]
    rw [nonzeroIdxsFrom_replicate_false, nonzeroIdxsFrom_replicate_true,
      nonzeroIdxsFrom_replicate_false, nonzeroIdxsFrom_replicate_true,
      nonzeroIdxsFrom_all_false _ _ (fun b hb => List.eq_of_mem_replicate hb)]
    simp
  have hne : List.range' a1 (l1p + 1) ++
      List.range' (a1 + (l1p + 1) + g) (l2p + 1) ≠ [] := by
    simp [List.range'_eq_nil]
  have hc : List.range' (a1 + (l1p + 1) + g) (l2p + 1) =
      (a1 + (l1p + 1) + g) :: List.range' (a1 + (l1p + 1) + g + 1) l2p :=
    List.range'_succ (a1 + (l1p + 1) + g) l2p 1
  have hs2 : splitWhen p ((a1 + (l1p + 1) + g) :: List.range' (a1 + (l1p + 1) + g + 1) l2p) =
      [List.range' (a1 + (l1p + 1) + g) (l2p + 1)] := by
    rw [← hc]
    exact splitWhen_range' p hp l2p (a1 + (l1p + 1) + g)
  have e1 : mergeCandidateRuns mBetween
      (List.replicate a1 false ++ List.replicate (l1p + 1) true ++
        List.replicate g false ++ List.replicate (l2p + 1) true ++
        List.replicate t false) =
      splitWhen p (List.range' a1 (l1p + 1) ++
        ((a1 + (l1p + 1) + g) :: List.range' (a1 + (l1p + 1) + g + 1) l2p)) := by
    rw [mergeCandidateRuns_of_ne_nil _ _ (by rw [hidx]; exact hne), hidx, hc]
  constructor
  · intro hle
    have hpc : p (a1 + l1p) (a1 + (l1p + 1) + g) = false := by
      simp only [hpdef, decide_eq_false_iff_not, not_lt]
      omega
    rw [e1, splitWhen_run_append_merge p hp l1p a1 _ _ _ _ hpc hs2]
  · intro hlt
    have hpc : p (a1 + l1p) (a1 + (l1p + 1) + g) = true := by
      simp only [hpdef, decide_eq_true_eq]
      omega
    rw [e1, splitWhen_run_append_split p hp l1p a1 _ _ hpc, hs2]

/-- Witness for C4: with `mBetween = 2`, the runs `{0}` and `{2}` (gap 2)
merge into one run. -/
theorem engbert_inter_event_merge_witness :
    mergeCandidateRuns 2 (List.replicate 0 false ++ List.replicate 1 true ++
      List.replicate 1 false ++ List.replicate 1 true ++ List.replicate 0 false) =
      [List.range' 0 1 ++ List.range' (0 + 1 + 1) 1] :=
  (engbert_inter_event_merge 2 0 1 1 1 0 (by decide) (by decide) (by decide)
    (by decide)).1 (by decide)

/-- A lookup into the mapped sample range. -/
theorem getD_map_range (f : ℕ → Bool) (n i : ℕ) (h : i < n) :
    ((List.range n).map f).getD i false = f i := by
  rw [List.getD_eq_getElem?_getD]
  simp [List.getElem?_map, List.getElem?_range h]

/-- Every chunk start/end pair computed by `chunksMinMax` appears in its
output. -/
theorem chunksMinMax_forward : ∀ (cs : List (List ℕ)) (l : List (ℕ × ℕ)),
    chunksMinMax cs = Except.ok l →
    ∀ c ∈ cs, ∀ s e, c.min? = some s → c.max? = some e → (s, e) ∈ l
  | [], l, h => by simp
  | c0 :: cs, l, h => by
    intro c hc s e hs he
    cases hmin : c0.min? with
    | none => simp [chunksMinMax, hmin] at h
    | some s0 =>
      cases hmax : c0.max? with
      | none => simp [chunksMinMax, hmin, hmax] at h
      | some e0 =>
        cases hrec : chunksMinMax cs with
        | error m => simp [chunksMinMax, hmin, hmax, hrec] at h
        | ok rest =>
          simp only [chunksMinMax, hmin, hmax, hrec, Except.ok.injEq] at h
          subst h
          rcases List.mem_cons.mp hc with rfl | hc2
          · rw [hmin] at hs
            rw [hmax] at he
            obtain rfl := Option.some.inj hs
            obtain rfl := Option.some.inj he
            exact List.mem_cons_self _ _
          · exact List.mem_cons_of_mem _
              (chunksMinMax_forward cs rest hrec c hc2 s e hs he)

/-- Every pair in the output of `chunksMinMax` is the start/end of one of the
chunks. -/
theorem chunksMinMax_backward : ∀ (cs : List (List ℕ)) (l : List (ℕ × ℕ)),
    chunksMinMax cs = Except.ok l →
    ∀ se ∈ l, ∃ c ∈ cs, c.min? = some se.1 ∧ c.max? = some se.2
  | [], l, h => by
    intro se hse
    simp only [chunksMinMax, Except.ok.injEq] at h
    subst h
    simp at hse
  | c0 :: cs, l, h => by
    intro se hse
    cases hmin : c0.min? with
    | none => simp [chunksMinMax, hmin] at h
    | some s0 =>
      cases hmax : c0.max? with
      | none => simp [chunksMinMax, hmin, hmax] at h
      | some e0 =>
        cases hrec : chunksMinMax cs with
        | error m => simp [chunksMinMax, hmin, hmax, hrec] at h
        | ok rest =>
          simp only [chunksMinMax, hmin, hmax, hrec, Except.ok.injEq] at h
          subst h
          rcases List.mem_cons.mp hse with rfl | hse2
          · exact ⟨c0, List.mem_cons_self _ _, hmin, hmax⟩
          · obtain ⟨c, hc, h1, h2⟩ := chunksMinMax_backward cs rest hrec se hse2
            exact ⟨c, List.mem_cons_of_mem _ hc, h1, h2⟩

/-- Chunk elements are candidate indices. -/
theorem mem_chunk_mem_idxs (mBetween : ℕ) (cand : List Bool) (c : List ℕ)
    (hc : c ∈ mergeCandidateRuns mBetween cand) (i : ℕ) (hi : i ∈ c) :
    i ∈ nonzeroIdxs cand := by
  by_cases hempty : (nonzeroIdxs cand).isEmpty
  · rw [mergeCandidateRuns, if_pos hempty] at hc
    simp only [List.mem_singleton] at hc
    subst hc
    simp at hi
  · rw [mergeCandidateRuns, if_neg hempty] at hc
    rw [← splitWhen_flatten (fun a b => decide (mBetween < b - a)) (nonzeroIdxs cand)]
    exact List.mem_flatten.mpr ⟨c, hc, hi⟩

/-- Candidate indices are below the mask length. -/
theorem mem_nonzeroIdxs_lt_length (cand : List Bool) (i : ℕ)
    (hi : i ∈ nonzeroIdxs cand) : i < cand.length := by
  have := (nonzeroIdxsFrom_mem_bounds cand 0 i hi).2
  omega

/-- Distinct chunks of the merging stage are element-wise ordered one way or
the other. -/
theorem mergeCandidateRuns_strong_pairwise (mBetween : ℕ) (cand : List Bool) :
    ∀ c1 ∈ mergeCandidateRuns mBetween cand, ∀ c2 ∈ mergeCandidateRuns mBetween cand,
      c1 ≠ c2 →
      (∀ x ∈ c1, ∀ y ∈ c2, x < y) ∨ (∀ x ∈ c2, ∀ y ∈ c1, x < y) := by
  have hpair : (mergeCandidateRuns mBetween cand).Pairwise
      (fun c1 c2 => ∀ x ∈ c1, ∀ y ∈ c2, x < y) := by
    by_cases hempty : (nonzeroIdxs cand).isEmpty
    · rw [mergeCandidateRuns, if_pos hempty]
      simp
    · rw [mergeCandidateRuns, if_neg hempty]
      exact splitWhen_chunks_strong _ _ (nonzeroIdxsFrom_pairwise cand 0)
  have hsym : Symmetric (fun c1 c2 : List ℕ =>
      (∀ x ∈ c1, ∀ y ∈ c2, x < y) ∨ (∀ x ∈ c2, ∀ y ∈ c1, x < y)) :=
    fun _ _ h => h.symm
  exact fun c1 h1 c2 h2 hne =>
    List.Pairwise.forall hsym (hpair.imp fun h => Or.inl h) h1 h2 hne

/-- C5 counterexample: with `mWithin = 2` (min_duration of two samples), the
candidate run `{0, 1}` of exactly two samples is discarded — the code keeps a
run only when `max - min ≥ mWithin`, i.e. when it spans at least
`mWithin + 1` samples — so "runs of at least min_duration samples survive"
fails: the final mask is `False` on the two-sample run. -/
theorem engbert_exact_min_duration_run_discarded :
    engbertDetect 1 2
      [true, true, false, false, false, true, true, true, true, true] =
      Except.ok [false, false, false, false, false, true, true, true, true, true] := rfl

/-- C5 (amended): for every candidate array, a merged run whose index span
`max - min` is strictly less than `mWithin` (equivalently, whose sample count
is at most `mWithin`) is discarded and none of its samples is `True` in the
final mask, while a run with span at least `mWithin` (sample count at least
`mWithin + 1`) survives: its whole span is `True` in the final mask. -/
theorem engbert_min_duration_filter (mBetween mWithin : ℕ) (cand : List Bool)
    (out : List Bool)
    (hdet : engbertDetect mBetween mWithin cand = Except.ok out) :
    ∀ c ∈ mergeCandidateRuns mBetween cand, ∀ s e,
      c.min? = some s → c.max? = some e →
      ((e - s < mWithin → ∀ i ∈ c, out.getD i false = false) ∧
       (mWithin ≤ e - s → ∀ i, s ≤ i → i ≤ e → out.getD i false = true)) := by
  intro c hc s e hs he
  cases hfse : find_start_end_indices mBetween mWithin cand with
  | error m => simp [engbertDetect, hfse] at hdet
  | ok runs =>
    simp only [engbertDetect, hfse] at hdet
    by_cases hre : runs.isEmpty = true
    · rw [if_pos hre] at hdet
      exact absurd hdet (by simp)
    · rw [if_neg hre] at hdet
      simp only [Except.ok.injEq] at hdet
      cases hcm : chunksMinMax (mergeCandidateRuns mBetween cand) with
      | error m => simp [find_start_end_indices, hcm] at hfse
      | ok startEnd =>
        simp only [find_start_end_indices, hcm, Except.ok.injEq] at hfse
        subst hfse
        subst hdet
        constructor
        · intro hspan i hi
          have hii : i ∈ nonzeroIdxs cand := mem_chunk_mem_idxs mBetween cand c hc i hi
          have hilen : i < cand.length := mem_nonzeroIdxs_lt_length cand i hii
          rw [getD_map_range _ _ _ hilen]
          apply List.any_eq_false.mpr
          intro se hse
          obtain ⟨hseSE, hkeep⟩ := List.mem_filter.mp hse
          have hkeep2 : mWithin ≤ se.2 - se.1 := of_decide_eq_true hkeep
          obtain ⟨c2, hc2, hmin2, hmax2⟩ := chunksMinMax_backward _ _ hcm se hseSE
          by_cases hcc : c2 = c
          · subst hcc
            rw [hs] at hmin2
            rw [he] at hmax2
            obtain rfl := Option.some.inj hmin2
            obtain rfl := Option.some.inj hmax2
            omega
          · have hmem1 : se.1 ∈ c2 := List.min?_mem (fun a b => min_choice a b) hmin2
            have hmem2 : se.2 ∈ c2 := List.max?_mem (fun a b => max_choice a b) hmax2
            rcases mergeCandidateRuns_strong_pairwise mBetween cand c2 hc2 c hc hcc with
              hlt | hlt
            · have : se.2 < i := hlt se.2 hmem2 i hi
              simp only [Bool.and_eq_true, decide_eq_true_eq, not_and]
              omega
            · have : i < se.1 := hlt i hi se.1 hmem1
              simp only [Bool.and_eq_true, decide_eq_true_eq, not_and]
              omega
        · intro hspan i hsi hie
          have hemem : e ∈ c := List.max?_mem (fun a b => max_choice a b) he
          have heidx : e ∈ nonzeroIdxs cand := mem_chunk_mem_idxs mBetween cand c hc e hemem
          have hilen : i < cand.length :=
            lt_of_le_of_lt hie (mem_nonzeroIdxs_lt_length cand e heidx)
          rw [getD_map_range _ _ _ hilen]
          apply List.any_eq_true.mpr
          refine ⟨(s, e), List.mem_filter.mpr
            ⟨chunksMinMax_forward _ _ hcm c hc s e hs he, by simpa using hspan⟩, ?_⟩
          simp [hsi, hie]

/-- Witness for C5: on the counterexample mask (`mBetween = 1`,
`mWithin = 2`), the discarded two-sample run `{0, 1}` has no `True` sample in
the final mask, and the surviving run `{5..9}` is fully `True`. -/
theorem engbert_min_duration_filter_witness :
    ([false, false, false, false, false, true, true, true, true, true] :
        List Bool).getD 0 false = false ∧
    ([false, false, false, false, false, true, true, true, true, true] :
        List Bool).getD 5 false = true :=
  ⟨((engbert_min_duration_filter 1 2
      [true, true, false, false, false, true, true, true, true, true]
      [false, false, false, false, false, true, true, true, true, true] rfl
      [0, 1] (by decide) 0 1 rfl rfl).1 (by decide) 0 (by decide)),
   ((engbert_min_duration_filter 1 2
      [true, true, false, false, false, true, true, true, true, true]
      [false, false, false, false, false, true, true, true, true, true] rfl
      [5, 6, 7, 8, 9] (by decide) 5 9 rfl rfl).2 (by decide) 5 (by decide) (by decide))⟩

/-- A successfully constructed event keeps its family and its index run. -/
theorem mkGazeEvent_ok (fam : EventFamily) (outlier : List ℚ → Bool) (ts : List ℚ)
    (idxs : List ℕ) (e : GazeEvent) (h : mkGazeEvent fam outlier ts idxs = Except.ok e) :
    e.family = fam ∧ e.idxs = idxs := by
  unfold mkGazeEvent at h
  split at h
  · exact absurd h (by simp)
  · split at h
    · exact absurd h (by simp)
    · simp only [Except.ok.injEq] at h
      subst h
      exact ⟨rfl, rfl⟩

/-- Successfully built events carry the chunks as their index runs and all
belong to the requested family. -/
theorem buildEvents_ok (fam : EventFamily) (outlier : List ℚ → Bool) (ts : List ℚ) :
    ∀ (cs : List (List ℕ)) (evs : List GazeEvent),
    buildEvents fam outlier ts cs = Except.ok evs →
    evs.map (fun e => e.idxs) = cs ∧ ∀ e ∈ evs, e.family = fam
  | [], evs, h => by
    simp only [buildEvents, Except.ok.injEq] at h
    subst h
    simp
  | c :: cs, evs, h => by
    cases hmk : mkGazeEvent fam outlier (c.map fun i => ts.getD i 0) c with
    | error m =>
      simp only [buildEvents] at h
      rw [hmk] at h
      exact absurd h (by simp)
    | ok e0 =>
      cases hrec : buildEvents fam outlier ts cs with
      | error m =>
        simp only [buildEvents] at h
        rw [hmk, hrec] at h
        exact absurd h (by simp)
      | ok rest =>
        simp only [buildEvents] at h
        rw [hmk, hrec] at h
        simp only [Except.ok.injEq] at h
        subst h
        obtain ⟨hfam0, hidxs0⟩ := mkGazeEvent_ok fam outlier _ c e0 hmk
        obtain ⟨hmap, hfam⟩ := buildEvents_ok fam outlier ts cs rest hrec
        refine ⟨?_, ?_⟩
        · simp [hidxs0, hmap]
        · intro e he
          rcases List.mem_cons.mp he with rfl | he2
          · exact hfam0
          · exact hfam e he2

/-- The extractor's chunks are pairwise disjoint index sets. -/
theorem split_samples_disjoint (mask : List Bool) :
    (split_samples_between_events mask).Pairwise
      (fun c1 c2 => c1.Disjoint c2) := by
  unfold split_samples_between_events
  by_cases hempty : (nonzeroIdxs mask).isEmpty
  · simp [hempty]
  · simp only [hempty, if_false]
    have hstrong := splitWhen_chunks_strong (fun a b => decide (b - a ≠ 1))
      (nonzeroIdxs mask) (nonzeroIdxsFrom_pairwise mask 0)
    exact hstrong.imp fun h => fun a ha hb => lt_irrefl a (h a ha a hb)

/-- Sorting by `start_time` yields a list sorted by `start_time`. -/
theorem mergeSort_sorted_events (l : List GazeEvent) :
    (l.mergeSort eventLE).Pairwise (fun a b => a.start_time ≤ b.start_time) := by
  have htrans : ∀ a b c : GazeEvent,
      eventLE a b = true → eventLE b c = true → eventLE a c = true := fun a b c hab hbc =>
    decide_eq_true (le_trans (of_decide_eq_true hab) (of_decide_eq_true hbc))
  have htotal : ∀ a b : GazeEvent, (eventLE a b || eventLE b a) = true := fun a b => by
    rcases le_total a.start_time b.start_time with h | h <;> simp [eventLE, h]
  exact (List.sorted_mergeSort htrans htotal l).imp fun h => of_decide_eq_true h

/-- Pairwise disjointness survives the final sort. -/
theorem pairwise_disjoint_mergeSort (l : List GazeEvent)
    (h : l.Pairwise (fun a b => a.idxs.Disjoint b.idxs)) :
    (l.mergeSort eventLE).Pairwise (fun a b => a.idxs.Disjoint b.idxs) :=
  ((List.mergeSort_perm l eventLE).pairwise_iff
    (fun hxy => List.disjoint_comm.mp hxy)).mpr h

/-- Everything `extract_event` returns successfully: sorted by start time,
pairwise disjoint index runs, and a single event family determined by the
event-type tag. -/
theorem extract_event_ok_properties (tr : TrialBehavior)
    (sacOutlier fixOutlier : List ℚ → Bool) (event_type : String) (drop_outliers : Bool)
    (evs : List GazeEvent)
    (h : extract_event tr sacOutlier fixOutlier event_type drop_outliers = Except.ok evs) :
    evs.Pairwise (fun a b => a.start_time ≤ b.start_time) ∧
    evs.Pairwise (fun a b => a.idxs.Disjoint b.idxs) ∧
    ∃ fam, parseEventFamily (lowerString event_type) = some fam ∧
      ∀ e ∈ evs, e.family = fam := by
  cases hparse : parseEventFamily (lowerString event_type) with
  | none =>
    simp only [extract_event, hparse] at h
    exact absurd h (by simp)
  | some fam =>
    cases hmask : tr.maskFor fam with
    | none =>
      simp only [extract_event, hparse, hmask] at h
      exact absurd h (by simp)
    | some mask =>
      simp only [extract_event, hparse, hmask] at h
      split at h
      · exact absurd h (by simp)
      · cases hbuild : buildEvents fam (outlierFor sacOutlier fixOutlier fam)
          (tr.microseconds.map fun t => t / 1000) (split_samples_between_events mask) with
        | error m =>
          rw [hbuild] at h
          exact absurd h (by simp)
        | ok evs0 =>
          rw [hbuild] at h
          simp only [Except.ok.injEq] at h
          subst h
          obtain ⟨hmap, hfam⟩ := buildEvents_ok _ _ _ _ _ hbuild
          have hdis0 : evs0.Pairwise (fun a b => a.idxs.Disjoint b.idxs) := by
            have := split_samples_disjoint mask
            rw [← hmap] at this
            exact List.pairwise_map.mp this
          set evs1 := if drop_outliers then evs0.filter fun e => ! e.is_outlier else evs0
            with hevs1
          have hsub : evs1.Sublist evs0 := by
            rw [hevs1]
            split
            · exact List.filter_sublist evs0
            · exact List.Sublist.refl evs0
          have hdis1 : evs1.Pairwise (fun a b => a.idxs.Disjoint b.idxs) :=
            List.Pairwise.sublist hsub hdis0
          refine ⟨mergeSort_sorted_events evs1, pairwise_disjoint_mergeSort evs1 hdis1,
            fam, rfl, ?_⟩
          intro e he
          have he0 : e ∈ evs0 := hsub.mem
            (((List.mergeSort_perm evs1 eventLE).mem_iff).mp he)
          exact hfam e he0

/-- Everything `extract_all_events` returns successfully: sorted by start
time, and within each family the index runs are pairwise disjoint. -/
theorem extract_all_events_ok_properties (tr : TrialBehavior)
    (sacOutlier fixOutlier : List ℚ → Bool) (drop_outliers : Bool) (evs : List GazeEvent)
    (h : extract_all_events tr sacOutlier fixOutlier drop_outliers = Except.ok evs) :
    evs.Pairwise (fun a b => a.start_time ≤ b.start_time) ∧
    ∀ fam, (evs.filter fun e => decide (e.family = fam)).Pairwise
      (fun a b => a.idxs.Disjoint b.idxs) := by
  cases hb : extract_event tr sacOutlier fixOutlier "blink" false with
  | error m =>
    simp only [extract_all_events, hb] at h
    exact absurd h (by simp)
  | ok bs =>
  cases hsa : extract_event tr sacOutlier fixOutlier "saccade" false with
  | error m =>
    simp only [extract_all_events, hb, hsa] at h
    exact absurd h (by simp)
  | ok ss =>
  cases hfx : extract_event tr sacOutlier fixOutlier "fixation" false with
  | error m =>
    simp only [extract_all_events, hb, hsa, hfx] at h
    exact absurd h (by simp)
  | ok fs =>
    simp only [extract_all_events, hb, hsa, hfx, Except.ok.injEq] at h
    subst h
    refine ⟨mergeSort_sorted_events _, ?_⟩
    intro fam
    obtain ⟨-, hdisb, famb, hpb, hfamb⟩ := extract_event_ok_properties _ _ _ _ _ _ hb
    obtain ⟨-, hdiss, fams, hps, hfams⟩ := extract_event_ok_properties _ _ _ _ _ _ hsa
    obtain ⟨-, hdisf, famf, hpf, hfamf⟩ := extract_event_ok_properties _ _ _ _ _ _ hfx
    have hb2 : famb = EventFamily.blink := by
      have hpb2 : parseEventFamily (lowerString "blink") = some EventFamily.blink := rfl
      rw [hpb2] at hpb
      exact (Option.some.inj hpb).symm
    have hs2 : fams = EventFamily.saccade := by
      have hps2 : parseEventFamily (lowerString "saccade") = some EventFamily.saccade := rfl
      rw [hps2] at hps
      exact (Option.some.inj hps).symm
    have hf2 : famf = EventFamily.fixation := by
      have hpf2 : parseEventFamily (lowerString "fixation") = some EventFamily.fixation := rfl
      rw [hpf2] at hpf
      exact (Option.some.inj hpf).symm
    subst hb2
    subst hs2
    subst hf2
    have hPall : ((bs ++ ss ++ fs).filter fun e => decide (e.family = fam)).Pairwise
        (fun a b => a.idxs.Disjoint b.idxs) := by
      rw [List.filter_append, List.filter_append]
      cases fam with
      | blink =>
        have h1 : (ss.filter fun e => decide (e.family = EventFamily.blink)) = [] :=
          List.filter_eq_nil_iff.mpr fun e he => by simp [hfams e he]
        have h2 : (fs.filter fun e => decide (e.family = EventFamily.blink)) = [] :=
          List.filter_eq_nil_iff.mpr fun e he => by simp [hfamf e he]
        rw [h1, h2, List.append_nil, List.append_nil]
        exact List.Pairwise.sublist (List.filter_sublist bs) hdisb
      | saccade =>
        have h1 : (bs.filter fun e => decide (e.family = EventFamily.saccade)) = [] :=
          List.filter_eq_nil_iff.mpr fun e he => by simp [hfamb e he]
        have h2 : (fs.filter fun e => decide (e.family = EventFamily.saccade)) = [] :=
          List.filter_eq_nil_iff.mpr fun e he => by simp [hfamf e he]
        rw [h1, h2, List.nil_append, List.append_nil]
        exact List.Pairwise.sublist (List.filter_sublist ss) hdiss
      | fixation =>
        have h1 : (bs.filter fun e => decide (e.family = EventFamily.fixation)) = [] :=
          List.filter_eq_nil_iff.mpr fun e he => by simp [hfamb e he]
        have h2 : (ss.filter fun e => decide (e.family = EventFamily.fixation)) = [] :=
          List.filter_eq_nil_iff.mpr fun e he => by simp [hfams e he]
        rw [h1, h2, List.nil_append, List.nil_append]
        exact List.Pairwise.sublist (List.filter_sublist fs) hdisf
    have hsub2 : ((if drop_outliers = true then
          (bs ++ ss ++ fs).filter fun e => ! e.is_outlier
        else bs ++ ss ++ fs).filter fun e => decide (e.family = fam)).Sublist
        ((bs ++ ss ++ fs).filter fun e => decide (e.family = fam)) := by
      split
      · exact List.Sublist.filter _ (List.filter_sublist _)
      · exact List.Sublist.refl _
    exact ((List.Perm.filter _ (List.mergeSort_perm _ eventLE)).pairwise_iff
      (fun hxy => List.disjoint_comm.mp hxy)).mpr (List.Pairwise.sublist hsub2 hPall)

/-- C7: every event list returned by `extract_event` is sorted ascending by
`start_time` with pairwise disjoint sample-index runs, and every list returned
by `extract_all_events` (concatenation of the three families, optional outlier
drop, re-sort) is sorted ascending by `start_time` with no two events of the
same family owning a common sample index. -/
theorem extract_events_sorted_and_disjoint (tr : TrialBehavior)
    (sacOutlier fixOutlier : List ℚ → Bool) (event_type : String) (drop_outliers : Bool) :
    (∀ evs, extract_event tr sacOutlier fixOutlier event_type drop_outliers =
        Except.ok evs →
      evs.Pairwise (fun a b => a.start_time ≤ b.start_time) ∧
      evs.Pairwise (fun a b => a.idxs.Disjoint b.idxs)) ∧
    (∀ evs, extract_all_events tr sacOutlier fixOutlier drop_outliers = Except.ok evs →
      evs.Pairwise (fun a b => a.start_time ≤ b.start_time) ∧
      ∀ fam, (evs.filter fun e => decide (e.family = fam)).Pairwise
        (fun a b => a.idxs.Disjoint b.idxs)) := by
  constructor
  · intro evs h
    obtain ⟨h1, h2, -⟩ := extract_event_ok_properties tr sacOutlier fixOutlier
      event_type drop_outliers evs h
    exact ⟨h1, h2⟩
  · intro evs h
    exact extract_all_events_ok_properties tr sacOutlier fixOutlier drop_outliers evs h

/-- Helper: on a two-sample trial whose three event columns are all `False`,
`extract_all_events` returns the empty list. -/
theorem extract_all_events_all_false_instance :
    extract_all_events
      { microseconds := [0, 1000], is_blink := some [false, false],
        is_saccade := some [false, false], is_fixation := some [false, false] }
      (fun _ => false) (fun _ => false) false = Except.ok [] := by
  have hb := extract_event_all_false_helper
    { microseconds := [0, 1000], is_blink := some [false, false],
      is_saccade := some [false, false], is_fixation := some [false, false] }
    (fun _ => false) (fun _ => false) "blink" false EventFamily.blink [false, false]
    rfl rfl rfl (by decide)
  have hs := extract_event_all_false_helper
    { microseconds := [0, 1000], is_blink := some [false, false],
      is_saccade := some [false, false], is_fixation := some [false, false] }
    (fun _ => false) (fun _ => false) "saccade" false EventFamily.saccade [false, false]
    rfl rfl rfl (by decide)
  have hf := extract_event_all_false_helper
    { microseconds := [0, 1000], is_blink := some [false, false],
      is_saccade := some [false, false], is_fixation := some [false, false] }
    (fun _ => false) (fun _ => false) "fixation" false EventFamily.fixation [false, false]
    rfl rfl rfl (by decide)
  simp only [extract_all_events, hb, hs, hf]
  simp [List.mergeSort_nil]

/-- Witness for C7: the all-`False` trial yields the empty (trivially sorted,
trivially disjoint) event list from `extract_all_events`. -/
theorem extract_events_sorted_and_disjoint_witness :
    extract_all_events
      { microseconds := [0, 1000], is_blink := some [false, false],
        is_saccade := some [false, false], is_fixation := some [false, false] }
      (fun _ => false) (fun _ => false) false = Except.ok [] ∧
    ([] : List GazeEvent).Pairwise (fun a b => a.start_time ≤ b.start_time) :=
  ⟨extract_all_events_all_false_instance,
   ((extract_events_sorted_and_disjoint
      { microseconds := [0, 1000], is_blink := some [false, false],
        is_saccade := some [false, false], is_fixation := some [false, false] }
      (fun _ => false) (fun _ => false) "blink" false).2 []
      extract_all_events_all_false_instance).1⟩
